import Mathlib

/-!
# Verification of the headless-coder adapter runtime

Shallow embedding of the adapter runtime of the `headless-coder` repository:
the Gemini CLI adapter (`packages/gemini-adapter/src/index.ts`), the Codex
adapter (`packages/codex-adapter/src/index.ts`) and the Claude adapter, plus
the shared structured-output extraction and session-resume resolution.

Modelling conventions:
* JavaScript values flowing out of `JSON.parse` are modelled by `JValue`;
  `JSON.parse` itself is modelled by `jsonParse` (JSON grammar with numbers
  kept as their raw digit strings, object fields in insertion order with
  last-wins lookup, matching JS property semantics for duplicate keys).
* JS truthiness on optional strings and on `JValue`s is modelled explicitly
  (`optTruthy`, `jsTruthyV`); `a ?? b` on possibly-missing values is
  `nullish _ <|> _` (both `undefined` and `null` fall through).
* Canonical stream events keep their tags and the payload fields the claims
  depend on (delta flags, error codes and messages, cancellation reasons,
  progress labels); timestamps, provider tags and raw pass-through payloads
  are constant per call site and are omitted.
* Event-driven code (child-process `line` / `close` / `exit` / `error`
  listeners plus the abort flag) is embedded as a step machine over an
  explicit signal trace; the internal queue-plus-waiters adaptation delivers
  pushed entries in FIFO order, so the consumer-visible sequence is the
  pushed entry list truncated at the first terminator (`observe`).
-/

/-- JavaScript-style JSON values. Numbers keep their raw source text (the
claims never depend on numeric value, only on truthiness of `0`). Object
fields are kept in source order; duplicate keys resolve to the last one,
as in JavaScript. -/
inductive JValue where
  | null
  | bool (b : Bool)
  | num (raw : String)
  | str (s : String)
  | arr (elems : List JValue)
  | obj (fields : List (String × JValue))

/-- Last-wins lookup in an object field list (JS assigns duplicate keys in
order, so the last occurrence is the visible one). -/
def lookupLast (k : String) : List (String × JValue) → Option JValue
  | [] => none
  | (k1, v) :: rest =>
    match lookupLast k rest with
    | some v1 => some v1
    | none => if k1 = k then some v else none

/-- JS property access `v[k]`: `undefined` (`none`) on non-objects. -/
def jsGet (v : JValue) (k : String) : Option JValue :=
  match v with
  | .obj fs => lookupLast k fs
  | _ => none

/-- Collapse JSON `null` to `undefined`: the left operand test of `??` and
the guard of optional chaining `?.`. -/
def nullish : Option JValue → Option JValue
  | some .null => none
  | x => x

/-- `v?.k1?.k2`: two-step optional chain. -/
def jsPath2 (v : JValue) (k1 k2 : String) : Option JValue :=
  match nullish (jsGet v k1) with
  | some w => jsGet w k2
  | none => none

/-- Is a raw JSON number literal numerically zero (every mantissa digit is
`0`)? Used only for truthiness. -/
def numIsZero (raw : String) : Bool :=
  decide (∀ c ∈ (raw.takeWhile (fun c => c ≠ 'e' ∧ c ≠ 'E')).data,
    c = '0' ∨ c = '-' ∨ c = '.')

/-- JS truthiness of a JSON value. -/
def jsTruthyV : JValue → Bool
  | .null => false
  | .bool b => b
  | .num raw => !numIsZero raw
  | .str s => s ≠ ""
  | .arr _ => true
  | .obj _ => true

/-- JS truthiness of a possibly-undefined JSON value. -/
def jsTruthyO : Option JValue → Bool
  | none => false
  | some v => jsTruthyV v

/-- JS truthiness of an optional string (absent and `""` are falsy). -/
def optTruthy : Option String → Bool
  | none => false
  | some s => s ≠ ""

/-! ## A model of `JSON.parse` -/

/-- The four JSON whitespace characters. -/
def isJsonWs (c : Char) : Bool :=
  c = ' ' || c = '\t' || c = '\n' || c = '\r'

/-- Drop leading JSON whitespace. -/
def skipJsonWs : List Char → List Char
  | [] => []
  | c :: cs => if isJsonWs c then skipJsonWs cs else c :: cs

/-- Longest digit run at the front. -/
def takeDigits : List Char → List Char × List Char
  | [] => ([], [])
  | c :: cs =>
    if c.isDigit then
      let (d, r) := takeDigits cs
      (c :: d, r)
    else ([], c :: cs)

/-- JSON integer part: `0` or a nonzero digit followed by digits. -/
def parseIntPart : List Char → Option (List Char × List Char)
  | [] => none
  | '0' :: cs => some (['0'], cs)
  | c :: cs =>
    if c.isDigit then
      let (d, r) := takeDigits cs
      some (c :: d, r)
    else none

/-- JSON fraction part `.digits` (optional; `none` consumed if absent). -/
def parseFracPart : List Char → Option (List Char × List Char)
  | '.' :: cs =>
    let (d, r) := takeDigits cs
    if d = [] then none else some ('.' :: d, r)
  | cs => some ([], cs)

/-- JSON exponent part `[eE][+-]?digits` (optional). -/
def parseExpPart : List Char → Option (List Char × List Char)
  | c :: cs =>
    if c = 'e' || c = 'E' then
      match cs with
      | s :: cs1 =>
        if s = '+' || s = '-' then
          let (d, r) := takeDigits cs1
          if d = [] then none else some (c :: s :: d, r)
        else
          let (d, r) := takeDigits (s :: cs1)
          if d = [] then none else some (c :: d, r)
      | [] => none
    else some ([], c :: cs)
  | [] => some ([], [])

/-- JSON number: optional `-`, integer part, optional fraction/exponent.
Returns the raw consumed characters. -/
def parseNumberRaw (cs : List Char) : Option (List Char × List Char) :=
  let (sign, cs1) := match cs with
    | '-' :: rest => (['-'], rest)
    | rest => (([] : List Char), rest)
  match parseIntPart cs1 with
  | none => none
  | some (ip, cs2) =>
    match parseFracPart cs2 with
    | none => none
    | some (fp, cs3) =>
      match parseExpPart cs3 with
      | none => none
      | some (ep, cs4) => some (sign ++ ip ++ fp ++ ep, cs4)

/-- Hex digit value. -/
def hexVal (c : Char) : Option Nat :=
  if '0' ≤ c ∧ c ≤ '9' then some (c.toNat - '0'.toNat)
  else if 'a' ≤ c ∧ c ≤ 'f' then some (c.toNat - 'a'.toNat + 10)
  else if 'A' ≤ c ∧ c ≤ 'F' then some (c.toNat - 'A'.toNat + 10)
  else none

/-- Body of a JSON string after the opening quote: decoded characters and
the rest after the closing quote. Escapes and the control-character ban
follow the JSON grammar. -/
def parseStringBody : List Char → Option (List Char × List Char)
  | [] => none
  | '"' :: cs => some ([], cs)
  | '\\' :: e :: cs =>
    match e with
    | '"' => (parseStringBody cs).map (fun p => ('"' :: p.1, p.2))
    | '\\' => (parseStringBody cs).map (fun p => ('\\' :: p.1, p.2))
    | '/' => (parseStringBody cs).map (fun p => ('/' :: p.1, p.2))
    | 'b' => (parseStringBody cs).map (fun p => (Char.ofNat 8 :: p.1, p.2))
    | 'f' => (parseStringBody cs).map (fun p => (Char.ofNat 12 :: p.1, p.2))
    | 'n' => (parseStringBody cs).map (fun p => ('\n' :: p.1, p.2))
    | 'r' => (parseStringBody cs).map (fun p => ('\r' :: p.1, p.2))
    | 't' => (parseStringBody cs).map (fun p => ('\t' :: p.1, p.2))
    | 'u' =>
      match cs with
      | h1 :: h2 :: h3 :: h4 :: cs1 =>
        match hexVal h1, hexVal h2, hexVal h3, hexVal h4 with
        | some a, some b, some c, some d =>
          (parseStringBody cs1).map
            (fun p => (Char.ofNat (a * 4096 + b * 256 + c * 16 + d) :: p.1, p.2))
        | _, _, _, _ => none
      | _ => none
    | _ => none
  | c :: cs =>
    if c.toNat < 32 then none
    else (parseStringBody cs).map (fun p => (c :: p.1, p.2))

/-- Literal character-list match. -/
def listStartsWith : List Char → List Char → Bool
  | [], _ => true
  | _ :: _, [] => false
  | p :: ps, c :: cs => p = c && listStartsWith ps cs

mutual

/-- JSON value parser (fuel-indexed; the fuel passed by `jsonParse` is ample
for any input, so exhaustion never fires on real parses). -/
def parseValueF : Nat → List Char → Option (JValue × List Char)
  | 0, _ => none
  | fuel + 1, cs =>
    match skipJsonWs cs with
    | [] => none
    | '{' :: rest =>
      match skipJsonWs rest with
      | '}' :: r2 => some (.obj [], r2)
      | r1 =>
        match parseMembersF fuel r1 [] with
        | some (fs, r2) => some (.obj fs, r2)
        | none => none
    | '[' :: rest =>
      match skipJsonWs rest with
      | ']' :: r2 => some (.arr [], r2)
      | r1 =>
        match parseElemsF fuel r1 [] with
        | some (vs, r2) => some (.arr vs, r2)
        | none => none
    | '"' :: rest =>
      match parseStringBody rest with
      | some (content, r2) => some (.str (String.mk content), r2)
      | none => none
    | c :: rest =>
      if listStartsWith ['t', 'r', 'u', 'e'] (c :: rest) then
        some (.bool true, (c :: rest).drop 4)
      else if listStartsWith ['f', 'a', 'l', 's', 'e'] (c :: rest) then
        some (.bool false, (c :: rest).drop 5)
      else if listStartsWith ['n', 'u', 'l', 'l'] (c :: rest) then
        some (.null, (c :: rest).drop 4)
      else
        match parseNumberRaw (c :: rest) with
        | some (raw, r2) => some (.num (String.mk raw), r2)
        | none => none

/-- Object members after `{` (at least one member). -/
def parseMembersF : Nat → List Char → List (String × JValue) →
    Option (List (String × JValue) × List Char)
  | 0, _, _ => none
  | fuel + 1, cs, acc =>
    match skipJsonWs cs with
    | '"' :: rest =>
      match parseStringBody rest with
      | none => none
      | some (key, r1) =>
        match skipJsonWs r1 with
        | ':' :: r2 =>
          match parseValueF fuel r2 with
          | none => none
          | some (v, r3) =>
            match skipJsonWs r3 with
            | ',' :: r4 => parseMembersF fuel r4 (acc ++ [(String.mk key, v)])
            | '}' :: r4 => some (acc ++ [(String.mk key, v)], r4)
            | _ => none
        | _ => none
    | _ => none

/-- Array elements after `[` (at least one element). -/
def parseElemsF : Nat → List Char → List JValue →
    Option (List JValue × List Char)
  | 0, _, _ => none
  | fuel + 1, cs, acc =>
    match parseValueF fuel cs with
    | none => none
    | some (v, r1) =>
      match skipJsonWs r1 with
      | ',' :: r2 => parseElemsF fuel r2 (acc ++ [v])
      | ']' :: r2 => some (acc ++ [v], r2)
      | _ => none

end

/-- Model of `JSON.parse`: `none` exactly when `JSON.parse` would throw
(the call sites wrap it in `try`/`catch`). -/
def jsonParse (s : String) : Option JValue :=
  match parseValueF (4 * (s.length + 1)) s.data with
  | some (v, rest) => if skipJsonWs rest = [] then some v else none
  | none => none

/-! ## Structured-output extraction (`extractJsonPayload`)

The same helper appears verbatim in the gemini adapter, the codex adapter
and the claude adapter; one definition models all three. -/

/-- Case-insensitive character-list match (the regex carries the `i` flag). -/
def listStartsWithCI : List Char → List Char → Bool
  | [], _ => true
  | _ :: _, [] => false
  | p :: ps, c :: cs => p.toLower = c.toLower && listStartsWithCI ps cs

/-- Index of the first occurrence of \x7b3 backticks\x7d in a character list. -/
def findTripleTick : List Char → Option Nat
  | [] => none
  | c :: cs =>
    if listStartsWith ['`', '`', '`'] (c :: cs) then some 0
    else (findTripleTick cs).map (· + 1)

/-- Group captured at one opening-fence position: the shortest nonempty run
of characters followed by a closing triple backtick (the regex group
`([\s\S]+?)` is lazy and nonempty, and the greedy-vs-lazy split against
`\s*` is irrelevant because the caller trims the group). -/
def fenceGroupAt (rest : List Char) : Option (List Char) :=
  match rest with
  | [] => none
  | c :: cs =>
    match findTripleTick cs with
    | some p => some (c :: cs.take p)
    | none => none

/-- Leftmost match of the fenced-block regex over the whole text. -/
def fencedSearch : List Char → Option (List Char)
  | [] => none
  | c :: cs =>
    if listStartsWithCI ['`', '`', '`', 'j', 's', 'o', 'n'] (c :: cs) then
      match fenceGroupAt ((c :: cs).drop 7) with
      | some g => some g
      | none => fencedSearch cs
    else fencedSearch cs

/-- Capture group of `text.match` against the json-fence regex, when the
regex matches. -/
def fencedJsonGroup (t : String) : Option String :=
  (fencedSearch t.data).map String.mk

/-- Index of the first occurrence of a character. -/
def firstIdxOf (c : Char) : List Char → Option Nat
  | [] => none
  | x :: xs => if x = c then some 0 else (firstIdxOf c xs).map (· + 1)

/-- `String.prototype.trim`: strip leading and trailing whitespace
(modelled over the ASCII whitespace characters). -/
def trimWsChars (cs : List Char) : List Char :=
  ((cs.dropWhile Char.isWhitespace).reverse.dropWhile Char.isWhitespace).reverse

/-- The `indexOf('\x7b')` / `lastIndexOf('\x7d')` slice of the candidate:
`none` when either brace is missing or they are inverted. -/
def braceSlice (cs : List Char) : Option (List Char) :=
  match firstIdxOf '{' cs, firstIdxOf '}' cs.reverse with
  | some s, some fromEnd =>
    let e := cs.length - 1 - fromEnd
    if e < s then none
    else some ((cs.drop s).take (e + 1 - s))
  | _, _ => none

/-- `extractJsonPayload(text)` from the adapters: falsy text yields
`undefined`; otherwise the fenced `json` block (if any, else the whole
text) is trimmed, cut to its outermost brace span and `JSON.parse`d,
with parse failure yielding `undefined`. -/
def extractJsonPayload (text : Option String) : Option JValue :=
  match text with
  | none => none
  | some t =>
    if t = "" then none
    else
      let candidate := trimWsChars (match fencedSearch t.data with
        | some g => g
        | none => t.data)
      match braceSlice candidate with
      | none => none
      | some slice => jsonParse (String.mk slice)

/-- Outermost-brace-span parse of a text, used by the spec-side restatement. -/
def outerBraceParse (s : String) : Option JValue :=
  match braceSlice (trimWsChars s.data) with
  | none => none
  | some slice => jsonParse (String.mk slice)

/-- Spec-side restatement of structured-output extraction, following the
spec's words ("extraction attempts, in order: (a) a fenced code block tagged
as JSON; (b) failing that, the outermost brace span in the raw text; parse
failures yield no structured output"). Used only to compare against the
code-side `extractJsonPayload`. -/
def specExtractStructured (t : String) : Option JValue :=
  match fencedJsonGroup t with
  | some g => outerBraceParse g
  | none => outerBraceParse t

/-! ## Canonical stream events (`CoderStreamEvent`)

Tags and the claim-relevant payload fields of the shared tagged union;
`ts`, `provider` and raw pass-through payloads are omitted (constants per
call site). -/

/-- Canonical event produced by every adapter's normalizer. -/
inductive CEvent where
  | init
  | message (delta : Bool)
  | toolUse
  | toolResult
  | progress (label : String)
  | permission
  | usage
  | error (code : Option String) (message : JValue)
  | cancelled (reason : String)
  | done

/-- Is this a `cancelled` event? -/
def CEvent.isCancelled : CEvent → Bool
  | .cancelled _ => true
  | _ => false

/-- Is this an `error` event? -/
def CEvent.isErrorEv : CEvent → Bool
  | .error _ _ => true
  | _ => false

/-- Is this a `done` event? -/
def CEvent.isDone : CEvent → Bool
  | .done => true
  | _ => false

/-- Is this one of the terminal-shaped canonical events named by the
terminal-event invariant (`done`, `error`, `cancelled`)? -/
def CEvent.isTerminalShaped : CEvent → Bool
  | .done => true
  | .error _ _ => true
  | .cancelled _ => true
  | _ => false

/-- How a streamed iteration ends for its consumer. -/
inductive Outcome where
  | completed
  | threw (msg : String)
  | pending

/-- The consumer-visible result of a streamed run: the canonical events
delivered in order, and how the iteration ended (`pending` means the
consumer is still awaiting a next entry). -/
structure Delivered where
  events : List CEvent
  outcome : Outcome

/-! ## Gemini adapter (`packages/gemini-adapter/src/index.ts`) -/

/-- `extractSessionId`: the `??` chain over the payload's candidate fields,
then the nonempty-string guard. -/
def extractSessionId (p : JValue) : Option String :=
  let cand := nullish (jsGet p "session_id") <|> nullish (jsGet p "sessionId") <|>
    nullish (jsPath2 p "session" "id") <|> nullish (jsPath2 p "session" "session_id") <|>
    nullish (jsPath2 p "metadata" "session_id")
  match cand with
  | some (.str s) => if s.length > 0 then some s else none
  | _ => none

/-- `extractSessionIndex`: the `??` chain over the index candidate fields;
numbers are stringified, strings are trimmed and must be nonempty.
(JSON numbers are always finite; the raw literal stands in for JS
`String(number)`.) -/
def extractSessionIndex (p : JValue) : Option String :=
  let cand := nullish (jsGet p "session_index") <|> nullish (jsGet p "sessionIndex") <|>
    nullish (jsGet p "index") <|> nullish (jsPath2 p "session" "index") <|>
    nullish (jsPath2 p "session" "session_index") <|> nullish (jsPath2 p "metadata" "session_index")
  match cand with
  | some (.num raw) => some raw
  | some (.str s) =>
    if String.mk (trimWsChars s.data) ≠ "" then some (String.mk (trimWsChars s.data)) else none
  | _ => none

/-- Thread-level state of a gemini thread (`GeminiThreadState` minus the
current-run slot, which is modelled separately where a claim needs it).
`optsResume` is `opts.resume`; the public `handle.id` always mirrors
`state.id` in the source, so only `id` is kept. -/
structure GThread where
  id : Option String := none
  resumeToken : Option String := none
  optsResume : Option String := none

/-- `captureGeminiSessionMetadata`: adopt an explicit session id as both id
and resume token; otherwise, when no id is known yet (JS truthiness), adopt
a session index as provisional resume token. -/
def captureGeminiSessionMetadata (st : GThread) (p : JValue) : GThread :=
  match extractSessionId p with
  | some sid => { st with id := some sid, resumeToken := some sid }
  | none =>
    if optTruthy st.id then st
    else
      match extractSessionIndex p with
      | some ix => { st with resumeToken := some ix }
      | none => st

/-- `resolveResumeTarget`: cached token, else last-known session id, else
the caller-supplied `opts.resume` when it is a nonempty string. -/
def resolveResumeTarget (st : GThread) : Option String :=
  if optTruthy st.resumeToken then st.resumeToken
  else if optTruthy st.id then st.id
  else
    match st.optsResume with
    | some c => if c.length > 0 then some c else none
    | none => none

/-- Thread state built by `GeminiAdapter.startThread` for a given
`opts.resume` (string or absent). -/
def geminiStartThread (optsResume : Option String) : GThread :=
  { id := optsResume, resumeToken := optsResume, optsResume := optsResume }

/-- One parsed entry of the `--list-sessions` output. -/
structure GSessionEntry where
  index : Int
  id : Option String := none

/-- `updateSessionMetadataFromList` applied to an already-parsed session
list (the `--list-sessions` subprocess is outside the model; its parsed
entries are a parameter). -/
def updateSessionMetadataFromList (st : GThread) (entries : List GSessionEntry) : GThread :=
  match entries.getLast? with
  | none => st
  | some latest =>
    match latest.id with
    | some lid =>
      if lid ≠ "" then { st with id := some lid, resumeToken := some lid }
      else if !(optTruthy st.id) then { st with resumeToken := some (toString latest.index) }
      else st
    | none =>
      if !(optTruthy st.id) then { st with resumeToken := some (toString latest.index) }
      else st

/-- `buildGeminiArgs`: the argument vector handed to the gemini binary. -/
def buildGeminiArgs (model : Option String) (includeDirectories : List String)
    (yolo : Bool) (prompt : String) (format : String)
    (resumeTarget : Option String) : List String :=
  ["--output-format", format, "--prompt", prompt]
    ++ (match model with
      | some m => if m ≠ "" then ["--model", m] else []
      | none => [])
    ++ (if includeDirectories ≠ [] then
        ["--include-directories", String.intercalate "," includeDirectories] else [])
    ++ (if yolo then ["--yolo"] else [])
    ++ (match resumeTarget with
      | some r => if r ≠ "" then ["--resume", r] else []
      | none => [])

/-- `normalizeGeminiEvent`: the switch over `ev.type` for one parsed JSON
line. A `result` line yields `usage` (when `ev.stats` is truthy) followed
by `done`; unknown and non-string types fall through to `progress`. -/
def normalizeGeminiEvent (ev : JValue) : List CEvent :=
  match jsGet ev "type" with
  | some (.str "init") => [.init]
  | some (.str "message") => [.message (jsTruthyO (jsGet ev "delta"))]
  | some (.str "tool_use") => [.toolUse]
  | some (.str "tool_result") => [.toolResult]
  | some (.str "error") =>
    [.error none ((nullish (jsGet ev "message")).getD (.str "gemini error"))]
  | some (.str "result") =>
    (if jsTruthyO (jsGet ev "stats") then [CEvent.usage] else []) ++ [CEvent.done]
  | some (.str t) => [.progress t]
  | _ => [.progress "gemini.event"]

/-- `${code}` in the exit-error message: `null` renders as "null". -/
def codeStr : Option Int → String
  | none => "null"
  | some k => toString k

/-- Entries pushed into the stream adaptation queue: canonical events, an
`Error` object (thrown to the consumer), or the DONE sentinel. -/
inductive GEntry where
  | ev (e : CEvent)
  | thrown (msg : String)
  | doneMark

/-- Observable signals driving the streamed gemini run: one stdout line,
the readline `close` event, the child `exit` event (code, `none` = null),
the child `error` event, and an `abortChild` invocation. -/
inductive GSignal where
  | line (s : String)
  | rlClose
  | exit (code : Option Int)
  | childError (msg : String)
  | abort (reason : Option String)

/-- Listener-visible state of one streamed gemini run: the `finished` latch,
the active run's abort flag and reason, and the thread state mutated by
session-metadata capture. -/
structure GMachine where
  thread : GThread
  finished : Bool := false
  aborted : Bool := false
  abortReason : Option String := none

/-- One signal step of the streamed gemini run: the `handleLine`,
`handleClose`, `onExit`, child-`error` and `abortChild` handlers, returning
the new state and the entries pushed (in order). `sessions` is the parsed
`--list-sessions` output used by the exit-0 metadata refresh. -/
def gStep (sessions : List GSessionEntry) (m : GMachine) : GSignal → GMachine × List GEntry
  | .line s =>
    if m.finished then (m, [])
    else
      match jsonParse s with
      | none => (m, [])
      | some ev =>
        ({ m with thread := captureGeminiSessionMetadata m.thread ev },
          (normalizeGeminiEvent ev).map GEntry.ev)
  | .rlClose =>
    if m.finished || !m.aborted then (m, [])
    else
      let r := m.abortReason.getD "Interrupted"
      ({ m with finished := true },
        [.ev (.cancelled r), .ev (.error (some "interrupted") (.str r)), .doneMark])
  | .exit code =>
    if m.finished then (m, [])
    else if m.aborted then
      let r := m.abortReason.getD "Interrupted"
      ({ m with finished := true },
        [.ev (.cancelled r), .ev (.error (some "interrupted") (.str r)), .doneMark])
    else if code ≠ some 0 then
      ({ m with finished := true },
        [.thrown ("gemini exited with code " ++ codeStr code), .doneMark])
    else
      let th := if !(optTruthy m.thread.id) || !(optTruthy m.thread.resumeToken)
        then updateSessionMetadataFromList m.thread sessions
        else m.thread
      ({ m with finished := true, thread := th }, [.doneMark])
  | .childError msg =>
    if m.finished then (m, [])
    else ({ m with finished := true }, [.thrown msg, .doneMark])
  | .abort reason =>
    if m.aborted then (m, [])
    else ({ m with aborted := true, abortReason := some (reason.getD "Interrupted") }, [])

/-- Run the streamed gemini machine over a whole signal trace, collecting
the pushed entries in order. -/
def gRun (sessions : List GSessionEntry) (m : GMachine) : List GSignal → GMachine × List GEntry
  | [] => (m, [])
  | s :: rest =>
    let st := gStep sessions m s
    let rst := gRun sessions st.1 rest
    (rst.1, st.2 ++ rst.2)

/-- Consumer loop over the pushed entries: events are yielded in order
until the DONE sentinel ends the iteration or an `Error` entry is thrown. -/
def observe : List GEntry → Delivered
  | [] => ⟨[], .pending⟩
  | .doneMark :: _ => ⟨[], .completed⟩
  | .thrown m :: _ => ⟨[], .threw m⟩
  | .ev e :: rest =>
    let d := observe rest
    ⟨e :: d.events, d.outcome⟩

/-- Consumer-visible result of one streamed gemini run from thread state
`st0` over a signal trace. -/
def geminiDeliver (sessions : List GSessionEntry) (st0 : GThread)
    (trace : List GSignal) : Delivered :=
  observe (gRun sessions { thread := st0 } trace).2

/-- `parseGeminiJson`: whole-stdout JSON parse with the non-JSON fallback
wrapping the raw output as `\x7b response: output \x7d`. -/
def parseGeminiJson (output : String) : JValue :=
  match jsonParse output with
  | some v => v
  | none => .obj [("response", .str output)]

/-- Result record of a non-streamed run (`RunResult`); `text` keeps the
JS value assigned (the source annotates `string` but assigns whatever
`parsed.response ?? parsed.text ?? stdout` produced). -/
structure GRunResult where
  threadId : Option String
  text : JValue
  json : Option JValue
  usage : Option JValue
  raw : JValue

/-- The structured-output step of the non-streamed run: `extractJsonPayload`
demands a string; a truthy non-string `text` would make `text.match` throw
a `TypeError` in the source, modelled as an error. -/
def extractForText : JValue → Except String (Option JValue)
  | .str s => .ok (extractJsonPayload (some s))
  | v => if jsTruthyV v then .error "TypeError: text.match is not a function" else .ok none

/-- Post-`waitForChild` tail of `GeminiAdapter.runInternal`: the abort
check, the exit-code check, JSON parsing with fallback, session-metadata
capture and refresh, text selection and structured extraction. Returns the
run result and the updated thread state, or the rejection message. -/
def geminiRunOutcome (st : GThread) (schema : Bool) (stdout stderr : String)
    (exitCode : Option Int) (aborted : Bool) (abortReason : Option String)
    (sessions : List GSessionEntry) : Except String (GRunResult × GThread) :=
  if aborted then .error (abortReason.getD "Operation was interrupted")
  else if exitCode ≠ some 0 then
    .error ("gemini exited with code " ++ codeStr exitCode ++ ": " ++ stderr)
  else
    let parsed := parseGeminiJson stdout
    let st1 := captureGeminiSessionMetadata st parsed
    let st2 := if !(optTruthy st1.id) || !(optTruthy st1.resumeToken)
      then updateSessionMetadataFromList st1 sessions
      else st1
    let text := ((nullish (jsGet parsed "response")) <|> (nullish (jsGet parsed "text"))).getD
      (.str stdout)
    match (if schema then extractForText text else .ok none) with
    | .error e => .error e
    | .ok structured =>
      .ok ({ threadId := st2.id, text := text, json := (structured <|> jsGet parsed "json"),
             usage := jsGet parsed "stats", raw := parsed }, st2)

/-- In-flight-run slot plus abort bookkeeping of one gemini run
(`ActiveRun`; the timers are modelled as pending flags here and as a
timeline in `killSignals`). -/
structure GActive where
  aborted : Bool := false
  abortReason : Option String := none
  stdinClosed : Bool := false
  softKillTimer : Bool := false
  hardKillTimer : Bool := false

/-- Side effects requested by `abortChild`. -/
inductive KillAction where
  | endStdin
  | scheduleSoft (delayMs : Nat)
  | scheduleHard (delayMs : Nat)

/-- `SOFT_KILL_DELAY_MS`. -/
def SOFT_KILL_DELAY_MS : Nat := 250

/-- `HARD_KILL_DELAY_MS`. -/
def HARD_KILL_DELAY_MS : Nat := 1500

/-- `GeminiAdapter.abortChild`: a no-op when there is no current run or it
is already aborted; otherwise flips the abort flag, records the reason,
ends stdin immediately and schedules the soft/hard kill timers (each only
if not already pending). -/
def abortChild (cur : Option GActive) (reason : Option String) :
    Option GActive × List KillAction :=
  match cur with
  | none => (none, [])
  | some a =>
    if a.aborted then (some a, [])
    else
      let a1 : GActive := { a with
        aborted := true,
        abortReason := some (reason.getD "Interrupted"),
        stdinClosed := true }
      let soft : GActive × List KillAction :=
        if a1.softKillTimer then (a1, [])
        else ({ a1 with softKillTimer := true }, [.scheduleSoft SOFT_KILL_DELAY_MS])
      let hard : GActive × List KillAction :=
        if soft.1.hardKillTimer then (soft.1, [])
        else ({ soft.1 with hardKillTimer := true }, [.scheduleHard HARD_KILL_DELAY_MS])
      (some hard.1, .endStdin :: (soft.2 ++ hard.2))

/-- `GeminiAdapter.assertIdle` followed by `spawnGeminiProcess` claiming
the run slot: the synchronous begin-run prefix of `runInternal` and
`runStreamedInternal`. Rejects while a run is in flight, before any
process is spawned; otherwise claims the slot and returns the argument
vector the spawn would receive. -/
def geminiBeginRun (st : GThread) (cur : Option GActive) (model : Option String)
    (includeDirectories : List String) (yolo : Bool) (prompt : String)
    (format : String) : Except String ((Option GActive) × List String) :=
  match cur with
  | some _ => .error "Gemini adapter only supports one in-flight run per thread."
  | none =>
    .ok (some {},
      buildGeminiArgs model includeDirectories yolo prompt format (resolveResumeTarget st))

/-- Discrete timeline of the two kill timers scheduled by `abortChild` at
time 0, against a process that exits on its own `exitAt` milliseconds later
(`none` = never exits, e.g. it ignores SIGTERM). Assumes the prompt-cleanup
path of the source: `clearKillTimers` runs when the process exits, so a
timer fires only strictly before `exitAt`. `child.killed` is Node's flag:
set once `kill()` successfully delivers a signal, which both timer callbacks
consult as their `!active.child.killed` guard; a fire on a live process
delivers its signal and sets the flag. Returns the delivered signals as
(time, name) pairs. -/
def killSignals (exitAt : Option Nat) : List (Nat × String) :=
  let timerLive : Nat → Bool := fun t =>
    match exitAt with
    | none => true
    | some e => t < e
  let softSends := timerLive SOFT_KILL_DELAY_MS
  let killedAfterSoft := softSends
  let hardSends := timerLive HARD_KILL_DELAY_MS && !killedAfterSoft
  (if softSends then [(SOFT_KILL_DELAY_MS, "SIGTERM")] else [])
    ++ (if hardSends then [(HARD_KILL_DELAY_MS, "SIGKILL")] else [])

/-! ## Codex adapter (`packages/codex-adapter/src/index.ts`) -/

/-- The `event.item.type` discriminant of a codex item event. -/
inductive CxItem where
  | agentMessage
  | otherItem (t : Option String)

/-- Native codex SDK events, pre-classified by the (mutually exclusive)
`event.type` strings that `normalizeCodexEvent` branches on; `otherEv`
covers every other type (its optional string is the `type` field when it
is a string). -/
inductive CxNative where
  | threadStarted
  | turnStarted
  | permissionEv (rest : String)
  | itemDelta (it : CxItem)
  | itemCompleted (it : CxItem)
  | toolUse
  | toolResult
  | turnCompleted
  | turnFailed (msg : Option String)
  | otherEv (t : Option String)

/-- `normalizeCodexEvent`: the branch chain over `event.type`. A completed
turn pushes `usage` (unconditionally) then `done`; a failed turn pushes a
single non-terminating `error`; unknown events surface as `progress`. -/
def normalizeCodexEvent : CxNative → List CEvent
  | .threadStarted => [.init]
  | .turnStarted => [.progress "turn.started"]
  | .permissionEv _ => [.permission]
  | .itemDelta .agentMessage => [.message true]
  | .itemDelta (.otherItem t) => [.progress ("item.delta:" ++ t.getD "event")]
  | .itemCompleted .agentMessage => [.message false]
  | .itemCompleted (.otherItem t) => [.progress ("item.completed:" ++ t.getD "event")]
  | .toolUse => [.toolUse]
  | .toolResult => [.toolResult]
  | .turnCompleted => [.usage, .done]
  | .turnFailed msg => [.error (some "turn.failed") (.str (msg.getD "Codex turn failed"))]
  | .otherEv t => [.progress (t.getD "codex.event")]

/-- How the backend's async event sequence ends: normally, or by raising an
error which `isAbortError` classifies by its name/code (`isAbort`). -/
inductive CxEnd where
  | normal
  | raise (isAbort : Bool) (msg : String)

/-- Concatenated normalization of a native event list. -/
def concatMapEvents (f : α → List CEvent) : List α → List CEvent
  | [] => []
  | a :: as => f a ++ concatMapEvents f as

/-- Consumer-visible result of `CodexAdapter.runStreamedInternal` over the
events the SDK produced and the way its sequence ended. `abortReason` is
`active.abortReason` (set exactly when `abortCurrentRun` ran, in which case
the controller's signal reason is the same string, so the source's
`abortReason ?? reasonToString(signal.reason) ?? error.message` chain
collapses to `abortReason.getD msg`). An abort-shaped raise yields the
`cancelled` + `error("interrupted")` pair and then returns; any other raise
propagates to the consumer. No `done` is synthesized on a silent end. -/
def codexDeliver (events : List CxNative) (ending : CxEnd)
    (abortReason : Option String) : Delivered :=
  let evs := concatMapEvents normalizeCodexEvent events
  match ending with
  | .normal => ⟨evs, .completed⟩
  | .raise true msg =>
    let r := abortReason.getD msg
    ⟨evs ++ [.cancelled r, .error (some "interrupted") (.str r)], .completed⟩
  | .raise false msg => ⟨evs, .threw msg⟩

/-- Abort bookkeeping of one in-flight codex run (`ActiveRun`): the flag
mirrors `abortController.signal.aborted`, which only `abortCurrentRun`
flips. -/
structure CxActive where
  aborted : Bool := false
  abortReason : Option String := none

/-- Backend state of a codex thread handle (`CodexThreadState`; the SDK
thread options are irrelevant to the claims and omitted). -/
structure CxState where
  id : Option String := none
  currentRun : Option CxActive := none

/-- `CodexAdapter.abortCurrentRun`: no current run, or an already-aborted
signal, is a no-op; otherwise record the reason and abort the controller. -/
def abortCurrentRun (st : CxState) (reason : Option String) : CxState :=
  match st.currentRun with
  | none => st
  | some a =>
    if a.aborted then st
    else
      { st with currentRun := some {
          aborted := true,
          abortReason := some (reason.getD "Interrupted") } }

/-- `CodexAdapter.assertIdle` plus claiming the run slot: the synchronous
begin-run prefix of `runInternal`/`runStreamedInternal`, which rejects a
busy thread before any SDK thread is created. -/
def codexBeginRun (st : CxState) : Except String CxState :=
  match st.currentRun with
  | some _ => .error "Codex adapter only supports one in-flight run per thread."
  | none => .ok { st with currentRun := some {} }

/-! ## Claude adapter (the `ClaudeAdapter` source) -/

/-- Native Claude Agent SDK message, keeping the fields the normalizer
reads: the raw `type` string (`(message?.type ?? '').toString()`), the
error indicators of result messages, and whether `message.usage` is
truthy. -/
structure ClNative where
  mtype : String
  isErrorFlag : Bool := false
  subtype : Option String := none
  resultField : Option String := none
  hasUsage : Bool := false

/-- `claudeResultIndicatesError`. -/
def claudeResultIndicatesError (m : ClNative) : Bool :=
  m.isErrorFlag || (m.subtype.getD "").startsWith "error"

/-- `buildClaudeResultErrorMessage`. -/
def buildClaudeResultErrorMessage (m : ClNative) : String :=
  "Claude run failed: " ++ m.resultField.getD "Claude run failed"

/-- Branch reached by `normalizeClaudeStreamMessage`'s ordered
`includes`-chain over the lowercased type string. -/
inductive ClClass where
  | initC
  | partialC
  | assistantC
  | toolUseC
  | toolResultC
  | permissionC
  | resultC
  | otherC
  deriving DecidableEq

/-- Substring containment on character lists. -/
def listContainsSeq (needle : List Char) : List Char → Bool
  | [] => needle = []
  | c :: cs => listStartsWith needle (c :: cs) || listContainsSeq needle cs

/-- Lowercase a string character-wise (`toLowerCase` on the ASCII type
tags used by the SDK). -/
def lowerStr (s : String) : String :=
  String.mk (s.data.map Char.toLower)

/-- Substring containment between strings. -/
def strContains (hay needle : String) : Bool :=
  listContainsSeq needle.data hay.data

/-- The ordered `includes`-chain of `normalizeClaudeStreamMessage`. -/
def classifyClaude (mtype : String) : ClClass :=
  let t := lowerStr mtype
  if strContains t "system" || strContains t "session" then .initC
  else if strContains t "partial" then .partialC
  else if strContains t "assistant" then .assistantC
  else if strContains t "tool_use" then .toolUseC
  else if strContains t "tool-result" then .toolResultC
  else if strContains t "permission" then .permissionC
  else if strContains t "result" then .resultC
  else .otherC

/-- `normalizeClaudeStreamMessage`: one SDK message to canonical events.
An error-indicating result yields a single `error`; a successful result
yields `usage` (when present) then `done`; anything unrecognized yields
`progress` with the lowercased type (or `claude.event` when empty). -/
def normalizeClaudeStreamMessage (m : ClNative) : List CEvent :=
  match classifyClaude m.mtype with
  | .initC => [.init]
  | .partialC => [.message true]
  | .assistantC => [.message false]
  | .toolUseC => [.toolUse]
  | .toolResultC => [.toolResult]
  | .permissionC => [.permission]
  | .resultC =>
    if claudeResultIndicatesError m then
      [.error none (.str (buildClaudeResultErrorMessage m))]
    else
      (if m.hasUsage then [CEvent.usage] else []) ++ [CEvent.done]
  | .otherC => [.progress (if lowerStr m.mtype = "" then "claude.event" else lowerStr m.mtype)]

/-- The inner event loop of `ClaudeAdapter.runStreamed` for one message's
normalized events: yield until an `error` event, which is yielded and then
stops the whole generator. Returns (yielded events, saw a `done`,
stopped-at-error). -/
def claudeEmit : List CEvent → List CEvent × Bool × Bool
  | [] => ([], false, false)
  | e :: rest =>
    if e.isErrorEv then ([e], false, true)
    else
      let r := claudeEmit rest
      (e :: r.1, e.isDone || r.2.1, r.2.2)

/-- The message loop of `ClaudeAdapter.runStreamed`: process messages in
order, stopping for good once a message's events stopped at an `error`. -/
def claudeLoop : List ClNative → List CEvent × Bool × Bool
  | [] => ([], false, false)
  | m :: rest =>
    let e := claudeEmit (normalizeClaudeStreamMessage m)
    if e.2.2 then (e.1, e.2.1, true)
    else
      let r := claudeLoop rest
      (e.1 ++ r.1, e.2.1 || r.2.1, r.2.2)

/-- How the Claude SDK generator ends after the modelled messages: normally
or by raising. -/
inductive ClEnd where
  | normal
  | raise (msg : String)

/-- Consumer-visible result of `ClaudeAdapter.runStreamed`: events of the
message loop; an error event ends the generator normally; a raise after the
messages propagates; a normal end without any `done` synthesizes one. -/
def claudeDeliver (msgs : List ClNative) (ending : ClEnd) : Delivered :=
  let r := claudeLoop msgs
  if r.2.2 then ⟨r.1, .completed⟩
  else
    match ending with
    | .raise msg => ⟨r.1, .threw msg⟩
    | .normal => if r.2.1 then ⟨r.1, .completed⟩ else ⟨r.1 ++ [CEvent.done], .completed⟩

/-- Thread-handle state built by `ClaudeAdapter.startThread` /
`resumeThread`: just the session id and the resume flag — it has no
current-run slot at all. -/
structure ClaudeState where
  sessionId : Option String := none
  resume : Bool := false

/-- The synchronous begin-run prefix of `ClaudeAdapter.run` and
`runStreamed`: the source performs no in-flight check (there is no
`assertIdle` and the state has no run slot), so beginning a run always
proceeds straight to `buildOptions` + `query` and leaves the handle state
unchanged. -/
def claudeBeginRun (st : ClaudeState) : Except String ClaudeState :=
  .ok st

/-! ## Properties of delivered event sequences -/

/-- Number of `cancelled` events in a delivered sequence. -/
def cancelledCount (evs : List CEvent) : Nat :=
  (evs.filter fun e => e.isCancelled).length

/-- Signals a stream can receive before its process exits, in the
no-abort scenarios: stdout lines and the output-stream close. -/
def preSignalOKb : GSignal → Bool
  | .line _ => true
  | .rlClose => true
  | _ => false

/-- Is this signal an abort? -/
def isAbortSig : GSignal → Bool
  | .abort _ => true
  | _ => false

/-- The canonical events of a pushed-entry list. -/
def evEvents (es : List GEntry) : List CEvent :=
  es.filterMap fun en =>
    match en with
    | .ev c => some c
    | _ => none

/-- Every entry is a pushed canonical event and none is `cancelled`. -/
def entriesPlain (es : List GEntry) : Prop :=
  ∀ en ∈ es, ∃ c, en = GEntry.ev c ∧ c.isCancelled = false

/-- The four possible terminal-entry blocks a finishing gemini handler
pushes: nothing yet, the DONE sentinel, a thrown error then DONE, or the
`cancelled` + `error("interrupted")` pair then DONE. -/
def termShape (es : List GEntry) : Prop :=
  es = [] ∨ es = [GEntry.doneMark]
    ∨ (∃ msg, es = [GEntry.thrown msg, GEntry.doneMark])
    ∨ (∃ r, es = [GEntry.ev (CEvent.cancelled r),
        GEntry.ev (CEvent.error (some "interrupted") (JValue.str r)), GEntry.doneMark])

/-- The `cancelled` + `error("interrupted")` pair appears at most once and
only as the final two delivered events. -/
def terminalPairOk (evs : List CEvent) : Prop :=
  cancelledCount evs = 0
    ∨ ∃ pre r, cancelledCount pre = 0
        ∧ evs = pre ++ [CEvent.cancelled r, CEvent.error (some "interrupted") (JValue.str r)]

/-- Every delivered event except possibly the last is not an `error`. -/
def errorOnlyLast (evs : List CEvent) : Prop :=
  ∀ e ∈ evs.dropLast, e.isErrorEv = false

/-! ## Helper lemmas -/

theorem filter_cancelled_nil_of_plain :
    ∀ {evs : List CEvent}, (∀ e ∈ evs, e.isCancelled = false) → cancelledCount evs = 0 := by
  intro evs
  induction evs with
  | nil => intro _; rfl
  | cons e rest ih =>
    intro h
    have he := h e (List.mem_cons_self _ _)
    have hr := ih fun x hx => h x (List.mem_cons_of_mem _ hx)
    unfold cancelledCount at hr ⊢
    simp [List.filter, he, hr]

theorem normalizeGeminiEvent_not_cancelled {ev : JValue} {c : CEvent}
    (h : c ∈ normalizeGeminiEvent ev) : c.isCancelled = false := by
  unfold normalizeGeminiEvent at h
  split at h <;>
    first
      | (simp only [List.mem_singleton] at h; subst h; rfl)
      | (rcases List.mem_append.mp h with h1 | h1
         · split at h1 <;> simp_all [CEvent.isCancelled]
         · simp only [List.mem_singleton] at h1; subst h1; rfl)

theorem gStep_entries_of_finished (sessions : List GSessionEntry) (m : GMachine)
    (s : GSignal) (hf : m.finished = true) :
    (gStep sessions m s).2 = [] ∧ (gStep sessions m s).1.finished = true := by
  cases s <;> simp [gStep, hf]
  case abort reason =>
    split <;> simp [hf]

theorem gRun_entries_of_finished (sessions : List GSessionEntry) :
    ∀ (tr : List GSignal) (m : GMachine), m.finished = true →
      (gRun sessions m tr).2 = [] := by
  intro tr
  induction tr with
  | nil => intro m _; rfl
  | cons s rest ih =>
    intro m hf
    have h1 := gStep_entries_of_finished sessions m s hf
    simp [gRun, h1.1, ih _ h1.2]

theorem gStep_char (sessions : List GSessionEntry) (m : GMachine) (s : GSignal)
    (hf : m.finished = false) :
    ((gStep sessions m s).1.finished = false ∧ entriesPlain (gStep sessions m s).2)
      ∨ ((gStep sessions m s).1.finished = true ∧ termShape (gStep sessions m s).2) := by
  cases s with
  | line t =>
    left
    constructor
    · simp [gStep, hf]
      cases jsonParse t <;> simp [hf]
    · simp only [gStep, hf]
      cases jsonParse t with
      | none => intro en hen; simp at hen
      | some ev =>
        intro en hen
        simp only [Bool.false_eq_true, if_false, List.mem_map] at hen
        obtain ⟨c, hc, rfl⟩ := hen
        exact ⟨c, rfl, normalizeGeminiEvent_not_cancelled hc⟩
  | rlClose =>
    by_cases ha : m.aborted = true
    · right
      simp [gStep, hf, ha, termShape]
    · left
      simp at ha
      simp [gStep, hf, ha, entriesPlain]
  | exit code =>
    right
    by_cases ha : m.aborted = true
    · simp [gStep, hf, ha, termShape]
    · simp at ha
      by_cases hc : code = some 0
      · simp [gStep, hf, ha, hc, termShape]
      · simp [gStep, hf, ha, hc, termShape]
  | childError msg =>
    right
    simp [gStep, hf, termShape]
  | abort reason =>
    left
    simp only [gStep]
    split <;> simp [hf, entriesPlain]

theorem gRun_char (sessions : List GSessionEntry) :
    ∀ (tr : List GSignal) (m : GMachine), m.finished = false →
      ∃ plain term, (gRun sessions m tr).2 = plain ++ term
        ∧ entriesPlain plain ∧ termShape term := by
  intro tr
  induction tr with
  | nil =>
    intro m _
    exact ⟨[], [], rfl, fun en hen => absurd hen (List.not_mem_nil en), Or.inl rfl⟩
  | cons s rest ih =>
    intro m hf
    rcases gStep_char sessions m s hf with ⟨h1, h2⟩ | ⟨h1, h2⟩
    · obtain ⟨plain, term, heq, hplain, hterm⟩ := ih (gStep sessions m s).1 h1
      refine ⟨(gStep sessions m s).2 ++ plain, term, ?_, ?_, hterm⟩
      · simp [gRun, heq]
      · intro en hen
        rcases List.mem_append.mp hen with h | h
        · exact h2 en h
        · exact hplain en h
    · refine ⟨[], (gStep sessions m s).2, ?_, ?_, h2⟩
      · simp [gRun, gRun_entries_of_finished sessions rest _ h1]
      · intro en hen
        simp at hen

theorem gRun_append (sessions : List GSessionEntry) :
    ∀ (t1 t2 : List GSignal) (m : GMachine),
      gRun sessions m (t1 ++ t2)
        = ((gRun sessions (gRun sessions m t1).1 t2).1,
           (gRun sessions m t1).2 ++ (gRun sessions (gRun sessions m t1).1 t2).2) := by
  intro t1
  induction t1 with
  | nil => intro t2 m; simp [gRun]
  | cons s rest ih =>
    intro t2 m
    simp [gRun, ih]

theorem observe_append_plain :
    ∀ {es : List GEntry}, entriesPlain es → ∀ rest,
      observe (es ++ rest)
        = ⟨evEvents es ++ (observe rest).events, (observe rest).outcome⟩ := by
  intro es
  induction es with
  | nil => intro _ rest; simp [evEvents]
  | cons en tail ih =>
    intro h rest
    obtain ⟨c, rfl, _⟩ := h en (List.mem_cons_self _ _)
    have htail := ih fun x hx => h x (List.mem_cons_of_mem _ hx)
    simp [observe, evEvents, htail rest]

theorem evEvents_plain_not_cancelled {es : List GEntry} (h : entriesPlain es) :
    ∀ e ∈ evEvents es, e.isCancelled = false := by
  intro e he
  unfold evEvents at he
  obtain ⟨en, hen, hm⟩ := List.mem_filterMap.mp he
  obtain ⟨c, rfl, hc⟩ := h en hen
  simp at hm
  exact hm ▸ hc

theorem normalizeCodexEvent_all_not_cancelled (e : CxNative) :
    (normalizeCodexEvent e).all (fun c => !c.isCancelled) = true := by
  cases e <;> first
    | rfl
    | (rename_i it; cases it <;> rfl)

theorem concatMapEvents_codex_not_cancelled :
    ∀ (evs : List CxNative), ∀ c ∈ concatMapEvents normalizeCodexEvent evs,
      c.isCancelled = false := by
  intro evs
  induction evs with
  | nil => intro c hc; simp [concatMapEvents] at hc
  | cons e rest ih =>
    intro c hc
    rcases List.mem_append.mp hc with h | h
    · have := List.all_eq_true.mp (normalizeCodexEvent_all_not_cancelled e) c h
      simpa using this
    · exact ih c h

theorem normalizeClaude_all_not_cancelled (m : ClNative) :
    (normalizeClaudeStreamMessage m).all (fun c => !c.isCancelled) = true := by
  unfold normalizeClaudeStreamMessage
  split
  any_goals rfl
  split
  · rfl
  · split <;> rfl

theorem claudeEmit_sub : ∀ {l : List CEvent} {e : CEvent}, e ∈ (claudeEmit l).1 → e ∈ l := by
  intro l
  induction l with
  | nil => intro e he; simp [claudeEmit] at he
  | cons a rest ih =>
    intro e he
    by_cases ha : a.isErrorEv = true
    · simp [claudeEmit, ha] at he
      simp [he]
    · simp only [claudeEmit, ha, Bool.false_eq_true, if_false] at he
      rcases List.mem_cons.mp he with h | h
      · simp [h]
      · exact List.mem_cons_of_mem _ (ih h)

theorem claudeEmit_err_shape : ∀ (l : List CEvent),
    ((claudeEmit l).2.2 = false → ∀ e ∈ (claudeEmit l).1, e.isErrorEv = false)
    ∧ ((claudeEmit l).2.2 = true → ∃ q er, (claudeEmit l).1 = q ++ [er]
        ∧ (∀ e ∈ q, e.isErrorEv = false)) := by
  intro l
  induction l with
  | nil =>
    refine ⟨fun _ e he => ?_, fun h => ?_⟩
    · simp [claudeEmit] at he
    · simp [claudeEmit] at h
  | cons a rest ih =>
    by_cases ha : a.isErrorEv = true
    · refine ⟨fun h => ?_, fun _ => ?_⟩
      · simp [claudeEmit, ha] at h
      · exact ⟨[], a, by simp [claudeEmit, ha], by simp⟩
    · simp only [Bool.not_eq_true] at ha
      refine ⟨fun h e he => ?_, fun h => ?_⟩
      · simp only [claudeEmit, ha, Bool.false_eq_true, if_false] at h he
        rcases List.mem_cons.mp he with rfl | hm
        · exact ha
        · exact ih.1 h e hm
      · simp only [claudeEmit, ha, Bool.false_eq_true, if_false] at h ⊢
        obtain ⟨q, er, heq, hq⟩ := ih.2 h
        refine ⟨a :: q, er, by simp [heq], ?_⟩
        intro e he
        rcases List.mem_cons.mp he with rfl | hm
        · exact ha
        · exact hq e hm

theorem claudeLoop_not_cancelled : ∀ (msgs : List ClNative),
    ∀ e ∈ (claudeLoop msgs).1, e.isCancelled = false := by
  intro msgs
  induction msgs with
  | nil => intro e he; simp [claudeLoop] at he
  | cons m rest ih =>
    intro e he
    have hnorm : ∀ c ∈ normalizeClaudeStreamMessage m, c.isCancelled = false := by
      intro c hc
      have := List.all_eq_true.mp (normalizeClaude_all_not_cancelled m) c hc
      simpa using this
    by_cases hstop : (claudeEmit (normalizeClaudeStreamMessage m)).2.2 = true
    · simp only [claudeLoop, hstop, if_true] at he
      exact hnorm e (claudeEmit_sub he)
    · simp only [claudeLoop, hstop, Bool.false_eq_true, if_false] at he
      rcases List.mem_append.mp he with h | h
      · exact hnorm e (claudeEmit_sub h)
      · exact ih e h

theorem claudeLoop_err_shape : ∀ (msgs : List ClNative),
    ((claudeLoop msgs).2.2 = false → ∀ e ∈ (claudeLoop msgs).1, e.isErrorEv = false)
    ∧ ((claudeLoop msgs).2.2 = true → ∃ q er, (claudeLoop msgs).1 = q ++ [er]
        ∧ (∀ e ∈ q, e.isErrorEv = false)) := by
  intro msgs
  induction msgs with
  | nil =>
    refine ⟨fun _ e he => ?_, fun h => ?_⟩
    · simp [claudeLoop] at he
    · simp [claudeLoop] at h
  | cons m rest ih =>
    by_cases hstop : (claudeEmit (normalizeClaudeStreamMessage m)).2.2 = true
    · refine ⟨fun h => ?_, fun _ => ?_⟩
      · simp [claudeLoop, hstop] at h
      · obtain ⟨q, er, heq, hq⟩ := (claudeEmit_err_shape (normalizeClaudeStreamMessage m)).2 hstop
        exact ⟨q, er, by simp [claudeLoop, hstop, heq], hq⟩
    · have hstop' : (claudeEmit (normalizeClaudeStreamMessage m)).2.2 = false := by
        simpa using hstop
      have hplain := (claudeEmit_err_shape (normalizeClaudeStreamMessage m)).1 hstop'
      refine ⟨fun h e he => ?_, fun h => ?_⟩
      · simp only [claudeLoop, hstop', Bool.false_eq_true, if_false] at h he
        rcases List.mem_append.mp he with hm | hm
        · exact hplain e hm
        · exact ih.1 h e hm
      · simp only [claudeLoop, hstop', Bool.false_eq_true, if_false] at h ⊢
        obtain ⟨q, er, heq, hq⟩ := ih.2 h
        refine ⟨(claudeEmit (normalizeClaudeStreamMessage m)).1 ++ q, er, by simp [heq], ?_⟩
        intro e he
        rcases List.mem_append.mp he with hm | hm
        · exact hplain e hm
        · exact hq e hm

theorem dropLast_append_single (q : List CEvent) (a : CEvent) : (q ++ [a]).dropLast = q := by
  simp

theorem geminiDeliver_shape (sessions : List GSessionEntry) (st0 : GThread)
    (tr : List GSignal) : terminalPairOk (geminiDeliver sessions st0 tr).events := by
  obtain ⟨plain, term, heq, hplain, hterm⟩ := gRun_char sessions tr { thread := st0 } rfl
  unfold geminiDeliver
  rw [heq, observe_append_plain hplain]
  have hpc : cancelledCount (evEvents plain) = 0 :=
    filter_cancelled_nil_of_plain (evEvents_plain_not_cancelled hplain)
  rcases hterm with rfl | rfl | ⟨msg, rfl⟩ | ⟨r, rfl⟩
  · left
    simpa [observe, cancelledCount] using hpc
  · left
    simpa [observe, cancelledCount] using hpc
  · left
    simpa [observe, cancelledCount] using hpc
  · right
    exact ⟨evEvents plain, r, hpc, by simp [observe]⟩

theorem codexDeliver_shape (evs : List CxNative) (ending : CxEnd) (ar : Option String) :
    terminalPairOk (codexDeliver evs ending ar).events := by
  have h0 : cancelledCount (concatMapEvents normalizeCodexEvent evs) = 0 :=
    filter_cancelled_nil_of_plain (concatMapEvents_codex_not_cancelled evs)
  cases ending with
  | normal =>
    left
    simpa [codexDeliver] using h0
  | raise isAbort msg =>
    cases isAbort with
    | false =>
      left
      simpa [codexDeliver] using h0
    | true =>
      right
      exact ⟨concatMapEvents normalizeCodexEvent evs, ar.getD msg, h0, by simp [codexDeliver]⟩

theorem claudeDeliver_not_cancelled (msgs : List ClNative) (ending : ClEnd) :
    cancelledCount (claudeDeliver msgs ending).events = 0 := by
  have hloop := claudeLoop_not_cancelled msgs
  unfold claudeDeliver
  by_cases hstop : (claudeLoop msgs).2.2 = true
  · simp only [hstop, if_true]
    exact filter_cancelled_nil_of_plain hloop
  · simp only [hstop, Bool.false_eq_true, if_false]
    cases ending with
    | raise msg => exact filter_cancelled_nil_of_plain hloop
    | normal =>
      by_cases hdone : (claudeLoop msgs).2.1 = true
      · simp only [hdone, if_true]
        exact filter_cancelled_nil_of_plain hloop
      · simp only [hdone, Bool.false_eq_true, if_false]
        refine filter_cancelled_nil_of_plain ?_
        intro e he
        rcases List.mem_append.mp he with h | h
        · exact hloop e h
        · simp at h
          subst h
          rfl

theorem claudeDeliver_errorOnlyLast (msgs : List ClNative) (ending : ClEnd) :
    errorOnlyLast (claudeDeliver msgs ending).events := by
  unfold claudeDeliver errorOnlyLast
  by_cases hstop : (claudeLoop msgs).2.2 = true
  · obtain ⟨q, er, heq, hq⟩ := (claudeLoop_err_shape msgs).2 hstop
    simp only [hstop, if_true, heq, dropLast_append_single]
    exact hq
  · have hstop' : (claudeLoop msgs).2.2 = false := by simpa using hstop
    have hplain := (claudeLoop_err_shape msgs).1 hstop'
    simp only [hstop', Bool.false_eq_true, if_false]
    cases ending with
    | raise msg =>
      intro e he
      exact hplain e ((claudeLoop msgs).1.dropLast_sublist.subset he)
    | normal =>
      by_cases hdone : (claudeLoop msgs).2.1 = true
      · simp only [hdone, if_true]
        intro e he
        exact hplain e ((claudeLoop msgs).1.dropLast_sublist.subset he)
      · simp only [hdone, Bool.false_eq_true, if_false, dropLast_append_single]
        exact hplain

theorem gRun_pre_signals (sessions : List GSessionEntry) :
    ∀ (tr : List GSignal) (m : GMachine),
      (∀ s ∈ tr, preSignalOKb s = true) → m.finished = false → m.aborted = false →
      (gRun sessions m tr).1.finished = false ∧ (gRun sessions m tr).1.aborted = false
        ∧ entriesPlain (gRun sessions m tr).2 := by
  intro tr
  induction tr with
  | nil =>
    intro m _ hf ha
    exact ⟨hf, ha, fun en hen => absurd hen (List.not_mem_nil en)⟩
  | cons s rest ih =>
    intro m hall hf ha
    have hs := hall s (List.mem_cons_self _ _)
    have hrest : ∀ x ∈ rest, preSignalOKb x = true :=
      fun x hx => hall x (List.mem_cons_of_mem _ hx)
    cases s with
    | line t =>
      cases hjp : jsonParse t with
      | none =>
        have hstep : gStep sessions m (GSignal.line t) = (m, []) := by
          simp [gStep, hf, hjp]
        obtain ⟨h1, h2, h3⟩ := ih m hrest hf ha
        simp only [gRun, hstep]
        exact ⟨h1, h2, by simpa using h3⟩
      | some ev =>
        have hstep : gStep sessions m (GSignal.line t)
            = ({ m with thread := captureGeminiSessionMetadata m.thread ev },
               (normalizeGeminiEvent ev).map GEntry.ev) := by
          simp [gStep, hf, hjp]
        obtain ⟨h1, h2, h3⟩ :=
          ih { m with thread := captureGeminiSessionMetadata m.thread ev } hrest hf ha
        simp only [gRun, hstep]
        refine ⟨h1, h2, ?_⟩
        intro en hen
        rcases List.mem_append.mp hen with hm | hm
        · obtain ⟨c, hc, rfl⟩ := List.mem_map.mp hm
          exact ⟨c, rfl, normalizeGeminiEvent_not_cancelled hc⟩
        · exact h3 en hm
    | rlClose =>
      have hstep : gStep sessions m GSignal.rlClose = (m, []) := by
        simp [gStep, hf, ha]
      obtain ⟨h1, h2, h3⟩ := ih m hrest hf ha
      simp only [gRun, hstep]
      exact ⟨h1, h2, by simpa using h3⟩
    | exit code => simp [preSignalOKb] at hs
    | childError msg => simp [preSignalOKb] at hs
    | abort reason => simp [preSignalOKb] at hs

theorem observe_events_sub : ∀ (es : List GEntry), ∀ e ∈ (observe es).events,
    GEntry.ev e ∈ es := by
  intro es
  induction es with
  | nil => intro e he; simp [observe] at he
  | cons en rest ih =>
    intro e he
    cases en with
    | doneMark => simp [observe] at he
    | thrown m => simp [observe] at he
    | ev c =>
      simp only [observe, List.mem_cons] at he ⊢
      rcases he with rfl | hm
      · exact Or.inl rfl
      · exact Or.inr (ih e hm)

theorem gStep_nonabort (sessions : List GSessionEntry) (m : GMachine) (s : GSignal)
    (hs : isAbortSig s = false) (ha : m.aborted = false) :
    (gStep sessions m s).1.aborted = false
      ∧ ∀ r, GEntry.ev (CEvent.cancelled r) ∉ (gStep sessions m s).2 := by
  cases s with
  | line t =>
    by_cases hf : m.finished = true
    · simp [gStep, hf, ha]
    · simp only [Bool.not_eq_true] at hf
      cases hjp : jsonParse t with
      | none => simp [gStep, hf, hjp, ha]
      | some ev =>
        refine ⟨by simp [gStep, hf, hjp, ha], ?_⟩
        intro r hr
        simp only [gStep, hf, Bool.false_eq_true, if_false, hjp, List.mem_map] at hr
        obtain ⟨c, hc, hceq⟩ := hr
        have := normalizeGeminiEvent_not_cancelled hc
        rw [GEntry.ev.injEq] at hceq
        subst hceq
        simp [CEvent.isCancelled] at this
  | rlClose =>
    simp [gStep, ha]
  | exit code =>
    by_cases hf : m.finished = true
    · simp [gStep, hf, ha]
    · simp only [Bool.not_eq_true] at hf
      by_cases hc : code = some 0
      · simp [gStep, hf, ha, hc]
      · simp [gStep, hf, ha, hc]
  | childError msg =>
    by_cases hf : m.finished = true
    · simp [gStep, hf, ha]
    · simp only [Bool.not_eq_true] at hf
      simp [gStep, hf, ha]
  | abort reason => simp [isAbortSig] at hs

theorem gRun_no_abort_no_cancelled (sessions : List GSessionEntry) :
    ∀ (tr : List GSignal) (m : GMachine),
      (∀ s ∈ tr, isAbortSig s = false) → m.aborted = false →
      ∀ r, GEntry.ev (CEvent.cancelled r) ∉ (gRun sessions m tr).2 := by
  intro tr
  induction tr with
  | nil =>
    intro m _ _ r hr
    simp [gRun] at hr
  | cons s rest ih =>
    intro m hall ha r hr
    have hs := hall s (List.mem_cons_self _ _)
    have hrest : ∀ x ∈ rest, isAbortSig x = false :=
      fun x hx => hall x (List.mem_cons_of_mem _ hx)
    obtain ⟨ha1, hnc⟩ := gStep_nonabort sessions m s hs ha
    simp only [gRun, List.mem_append] at hr
    rcases hr with h | h
    · exact hnc r h
    · exact ih (gStep sessions m s).1 hrest ha1 r h

theorem geminiDeliver_no_abort_no_cancelled (sessions : List GSessionEntry)
    (st0 : GThread) (tr : List GSignal) (h : ∀ s ∈ tr, isAbortSig s = false) :
    cancelledCount (geminiDeliver sessions st0 tr).events = 0 := by
  refine filter_cancelled_nil_of_plain ?_
  intro e he
  cases e <;> try rfl
  case cancelled r =>
    exfalso
    have hmem : GEntry.ev (CEvent.cancelled r) ∈ (gRun sessions { thread := st0 } tr).2 :=
      observe_events_sub _ _ he
    exact gRun_no_abort_no_cancelled sessions tr { thread := st0 } h rfl r hmem

theorem string_length_pos_of_ne_empty {s : String} (h : s ≠ "") : 0 < s.length := by
  cases s with
  | mk data =>
    cases data with
    | nil => exact absurd rfl h
    | cons c cs => simp [String.length]

/-! ## Claim theorems -/

/-- C1, counterexample. The claim states every streamed run delivers
exactly one terminal outcome (`done`, `error`/thrown, or
`cancelled`+`error`), never zero and with no event after it. Both halves
fail on the code: a codex run whose backend sequence is a lone
`turn.started` and then ends delivers one `progress` event, completes
normally and contains zero terminal-shaped events; and a claude run whose
backend emits a successful result message followed by an assistant message
delivers an event after the terminal `done`. -/
theorem c1_terminal_invariant_counterexample :
    ((codexDeliver [CxNative.turnStarted] CxEnd.normal none).events.filter
        CEvent.isTerminalShaped = []
      ∧ (codexDeliver [CxNative.turnStarted] CxEnd.normal none).outcome = Outcome.completed)
    ∧ (claudeDeliver [{ mtype := "result" }, { mtype := "assistant" }] ClEnd.normal).events
        = [CEvent.done, CEvent.message false] :=
  ⟨⟨rfl, rfl⟩, rfl⟩

/-- C1, amended: on every streamed run of the three adapters the controller
stops delivering exactly once and nothing follows the stop; the
`cancelled` + `error("interrupted")` pair appears at most once and only as
the final two delivered events, and for claude an `error` event is always
the last event delivered. (The original "exactly one terminal outcome,
never zero, nothing after it" fails: gemini and codex streams that end
without a done-shaped native event deliver zero terminal-shaped events,
and a backend may emit further events after its done-shaped one.) -/
theorem c1_amended_terminal_delivery :
    (∀ (sessions : List GSessionEntry) (st0 : GThread) (tr : List GSignal),
        terminalPairOk (geminiDeliver sessions st0 tr).events)
    ∧ (∀ (evs : List CxNative) (ending : CxEnd) (ar : Option String),
        terminalPairOk (codexDeliver evs ending ar).events)
    ∧ (∀ (msgs : List ClNative) (ending : ClEnd),
        terminalPairOk (claudeDeliver msgs ending).events
          ∧ errorOnlyLast (claudeDeliver msgs ending).events) :=
  ⟨geminiDeliver_shape, codexDeliver_shape,
   fun msgs ending =>
     ⟨Or.inl (claudeDeliver_not_cancelled msgs ending),
      claudeDeliver_errorOnlyLast msgs ending⟩⟩

/-- C2, confirmed. A gemini run whose output stream closes (with any
stdout lines before or after) and whose process then exits with a non-zero
or signaled (`null`) status, with the cancellation token never aborted,
throws the exit error to the streamed consumer — the close alone leaves the
iteration pending, never `done` — and the non-streamed path rejects. -/
theorem c2_exit_after_close_is_error (sessions : List GSessionEntry) (st0 : GThread)
    (pre : List GSignal) (code : Option Int)
    (hpre : ∀ s ∈ pre, preSignalOKb s = true) (hcode : code ≠ some 0) :
    (geminiDeliver sessions st0 (pre ++ [GSignal.exit code])).outcome
        = Outcome.threw ("gemini exited with code " ++ codeStr code)
    ∧ (geminiDeliver sessions st0 pre).outcome = Outcome.pending
    ∧ ∀ (schema : Bool) (stdout stderr : String) (ar : Option String),
        (geminiRunOutcome st0 schema stdout stderr code false ar sessions).isOk = false := by
  obtain ⟨h1, h2, h3⟩ := gRun_pre_signals sessions pre { thread := st0 } hpre rfl rfl
  refine ⟨?_, ?_, ?_⟩
  · unfold geminiDeliver
    rw [gRun_append]
    have hexit : (gStep sessions (gRun sessions { thread := st0 } pre).1 (GSignal.exit code)).2
        = [GEntry.thrown ("gemini exited with code " ++ codeStr code), GEntry.doneMark] := by
      simp [gStep, gRun, h1, h2, hcode]
    have hrw : (gRun sessions (gRun sessions { thread := st0 } pre).1 [GSignal.exit code]).2
        = [GEntry.thrown ("gemini exited with code " ++ codeStr code), GEntry.doneMark] := by
      simp [gRun, hexit]
    rw [hrw, observe_append_plain h3]
    simp [observe]
  · unfold geminiDeliver
    have h4 := observe_append_plain h3 []
    rw [List.append_nil] at h4
    rw [h4]
    simp [observe]
  · intro schema stdout stderr ar
    simp [geminiRunOutcome, hcode, Except.isOk, Except.toBool]

/-- C2, witness: a run with one stdout line, a stream close, then exit
code 1 throws the exit error; the close alone leaves the stream pending;
the non-streamed path rejects. -/
theorem c2_exit_after_close_witness :
    (geminiDeliver [] {} ([GSignal.line "x", GSignal.rlClose] ++ [GSignal.exit (some 1)])).outcome
        = Outcome.threw ("gemini exited with code " ++ codeStr (some 1))
    ∧ (geminiDeliver [] {} [GSignal.line "x", GSignal.rlClose]).outcome = Outcome.pending
    ∧ (geminiRunOutcome {} false "out" "err" (some 1) false none []).isOk = false := by
  have h := c2_exit_after_close_is_error [] {} [GSignal.line "x", GSignal.rlClose] (some 1)
    (by decide) (by decide)
  exact ⟨h.1, h.2.1, h.2.2 false "out" "err" none⟩

/-- C3, counterexample. The claim is an "if and only if": `cancelled`
appears exactly when the token was aborted before the terminal event. The
"if" direction fails: abort the run, then let the child emit its `error`
event (e.g. a spawn failure) — the handler pushes only the thrown error,
so the aborted run terminates with no `cancelled` event at all. -/
theorem c3_cancelled_iff_aborted_counterexample :
    geminiDeliver [] {} [GSignal.abort (some "stop"), GSignal.childError "spawn failed"]
      = ⟨[], Outcome.threw "spawn failed"⟩ := rfl

/-- C3, amended: `cancelled` appears only if the token was aborted before
the terminal event — equivalently, a trace with no abort (any crash,
non-zero exit, or signaled exit with `aborted == false`) delivers no
`cancelled` event, and a codex stream that ends normally or raises a
non-abort-shaped error delivers no `cancelled` — but the converse fails:
an aborted run may still terminate without `cancelled` (see the
counterexample). -/
theorem c3_amended_cancelled_only_if_aborted :
    (∀ (sessions : List GSessionEntry) (st0 : GThread) (tr : List GSignal),
        (∀ s ∈ tr, isAbortSig s = false) →
        cancelledCount (geminiDeliver sessions st0 tr).events = 0)
    ∧ (∀ (evs : List CxNative) (ar : Option String),
        cancelledCount (codexDeliver evs CxEnd.normal ar).events = 0)
    ∧ (∀ (evs : List CxNative) (ar : Option String) (msg : String),
        cancelledCount (codexDeliver evs (CxEnd.raise false msg) ar).events = 0) := by
  refine ⟨geminiDeliver_no_abort_no_cancelled, ?_, ?_⟩
  · intro evs ar
    have h0 := filter_cancelled_nil_of_plain (concatMapEvents_codex_not_cancelled evs)
    simpa [codexDeliver] using h0
  · intro evs ar msg
    have h0 := filter_cancelled_nil_of_plain (concatMapEvents_codex_not_cancelled evs)
    simpa [codexDeliver] using h0

/-- C3, witness: a crash with exit 137 and no abort delivers no
`cancelled` event. -/
theorem c3_amended_witness :
    cancelledCount (geminiDeliver [] {} [GSignal.line "x", GSignal.exit (some 137)]).events
      = 0 :=
  c3_amended_cancelled_only_if_aborted.1 [] {} [GSignal.line "x", GSignal.exit (some 137)]
    (by decide)

/-- C4, counterexample. The claim says all three adapters reject a second
`run`/`runStreamed` on a busy Thread Handle. The claude adapter does not:
its handle state has no in-flight slot and `run`/`runStreamed` perform no
check, so beginning a run leaves the state unchanged and a second begin
issued while the first is still unresolved is accepted instead of
rejected. -/
theorem c4_concurrent_run_counterexample :
    (claudeBeginRun { sessionId := some "s", resume := false }).bind claudeBeginRun
      = Except.ok { sessionId := some "s", resume := false } := rfl

/-- C4, amended: the gemini and codex adapters reject a `run`/`runStreamed`
call on a Thread Handle whose current-run slot is occupied, before any
process is spawned or SDK thread created (the rejection carries no spawn
arguments); the claude adapter performs no in-flight check and always
proceeds. -/
theorem c4_amended_busy_thread_rejected :
    (∀ (st : GThread) (cur : Option GActive) (model : Option String)
        (dirs : List String) (yolo : Bool) (prompt format : String) (a : GActive),
        cur = some a →
        geminiBeginRun st cur model dirs yolo prompt format
          = Except.error "Gemini adapter only supports one in-flight run per thread.")
    ∧ (∀ (st : CxState) (a : CxActive), st.currentRun = some a →
        codexBeginRun st
          = Except.error "Codex adapter only supports one in-flight run per thread.")
    ∧ (∀ st : ClaudeState, claudeBeginRun st = Except.ok st) := by
  refine ⟨?_, ?_, fun _ => rfl⟩
  · intro st cur model dirs yolo prompt format a hcur
    subst hcur
    rfl
  · intro st a hcur
    unfold codexBeginRun
    rw [hcur]

/-- C4, witness: a busy gemini thread and a busy codex thread both reject
the second run. -/
theorem c4_amended_witness :
    geminiBeginRun {} (some {}) none [] false "p" "json"
        = Except.error "Gemini adapter only supports one in-flight run per thread."
    ∧ codexBeginRun { currentRun := some {} }
        = Except.error "Codex adapter only supports one in-flight run per thread." :=
  ⟨c4_amended_busy_thread_rejected.1 {} (some {}) none [] false "p" "json" {} rfl,
   c4_amended_busy_thread_rejected.2.1 { currentRun := some {} } {} rfl⟩

/-- C5, counterexample. The claim says both stream-backed adapters (codex
and claude) synthesize a `done` event when the backend sequence ends
without a done-shaped native event. The codex adapter does not: a codex
stream consisting of a lone `thread.started` that then ends delivers only
`init` and finishes with no `done` event. -/
theorem c5_codex_no_synthesized_done_counterexample :
    codexDeliver [CxNative.threadStarted] CxEnd.normal none
        = ⟨[CEvent.init], Outcome.completed⟩
    ∧ (codexDeliver [CxNative.threadStarted] CxEnd.normal none).events.filter
        CEvent.isDone = [] :=
  ⟨rfl, rfl⟩

theorem normalizeClaude_plain_of_not_result {m : ClNative}
    (h : classifyClaude m.mtype ≠ ClClass.resultC) :
    ∀ e ∈ normalizeClaudeStreamMessage m, e.isErrorEv = false ∧ e.isDone = false := by
  intro e he
  unfold normalizeClaudeStreamMessage at he
  cases hc : classifyClaude m.mtype <;> rw [hc] at he <;>
    first
      | exact absurd hc h
      | (simp only [List.mem_singleton] at he
         subst he
         exact ⟨rfl, rfl⟩)

theorem claudeEmit_all_plain :
    ∀ {l : List CEvent}, (∀ e ∈ l, e.isErrorEv = false ∧ e.isDone = false) →
      claudeEmit l = (l, false, false) := by
  intro l
  induction l with
  | nil => intro _; rfl
  | cons a rest ih =>
    intro h
    have ha := h a (List.mem_cons_self _ _)
    have hr := ih fun x hx => h x (List.mem_cons_of_mem _ hx)
    simp [claudeEmit, ha.1, ha.2, hr]

theorem claudeLoop_all_plain :
    ∀ (msgs : List ClNative), (∀ m ∈ msgs, classifyClaude m.mtype ≠ ClClass.resultC) →
      claudeLoop msgs = (concatMapEvents normalizeClaudeStreamMessage msgs, false, false) := by
  intro msgs
  induction msgs with
  | nil => intro _; rfl
  | cons m rest ih =>
    intro h
    have hm := normalizeClaude_plain_of_not_result (h m (List.mem_cons_self _ _))
    have he := claudeEmit_all_plain hm
    have hr := ih fun x hx => h x (List.mem_cons_of_mem _ hx)
    simp [claudeLoop, he, hr, concatMapEvents]

/-- C5, amended: the claude controller synthesizes `done`: if no backend
message reaches the result branch (so no done-shaped native event and no
error-shaped result appears), the delivered sequence is exactly the
normalized events followed by one synthesized `done`, and the iteration
completes; the codex controller performs no such synthesis (see the
counterexample). -/
theorem c5_amended_claude_synthesizes_done (msgs : List ClNative)
    (h : ∀ m ∈ msgs, classifyClaude m.mtype ≠ ClClass.resultC) :
    (claudeDeliver msgs ClEnd.normal).events
        = concatMapEvents normalizeClaudeStreamMessage msgs ++ [CEvent.done]
    ∧ (claudeDeliver msgs ClEnd.normal).outcome = Outcome.completed := by
  have hloop := claudeLoop_all_plain msgs h
  constructor <;> simp [claudeDeliver, hloop]

/-- C5, witness: a lone assistant message yields that message followed by a
synthesized `done`, completing normally. -/
theorem c5_amended_witness :
    (claudeDeliver [{ mtype := "assistant" }] ClEnd.normal).events
        = concatMapEvents normalizeClaudeStreamMessage [{ mtype := "assistant" }]
          ++ [CEvent.done]
    ∧ (claudeDeliver [{ mtype := "assistant" }] ClEnd.normal).outcome
        = Outcome.completed :=
  c5_amended_claude_synthesizes_done [{ mtype := "assistant" }] (by decide)

/-- C6, code bug. After `abortChild` at time 0 against a process that
ignores SIGTERM and never exits, the soft-kill timer delivers SIGTERM at
250 ms — which sets Node's `child.killed` flag — and the hard-kill timer's
`!active.child.killed` guard is therefore false at 1500 ms, so SIGKILL is
never sent, contradicting the claim (and spec §4.2 step 3) that a
still-alive process receives the forceful signal after the hard-kill
delay. The other clauses hold: `abortChild` ends stdin immediately and
schedules the timers at 250/1500 ms from abort time, a process exiting
before the soft deadline receives no signal at all, and one exiting
between the deadlines receives only SIGTERM. -/
theorem c6_hard_kill_never_fired :
    killSignals none = [(SOFT_KILL_DELAY_MS, "SIGTERM")]
    ∧ (killSignals none).filter (fun p => p.2 == "SIGKILL") = []
    ∧ killSignals (some 100) = []
    ∧ killSignals (some 1000) = [(SOFT_KILL_DELAY_MS, "SIGTERM")]
    ∧ ∀ r : String, abortChild (some {}) (some r)
        = (some { aborted := true, abortReason := some r, stdinClosed := true,
                  softKillTimer := true, hardKillTimer := true },
           [KillAction.endStdin, KillAction.scheduleSoft SOFT_KILL_DELAY_MS,
            KillAction.scheduleHard HARD_KILL_DELAY_MS]) :=
  ⟨rfl, rfl, rfl, rfl, fun _ => rfl⟩

theorem capture_keeps_start :
    ∀ (ps : List JValue) (r : String), r ≠ "" → (∀ p ∈ ps, extractSessionId p = none) →
      ps.foldl captureGeminiSessionMetadata (geminiStartThread (some r))
        = geminiStartThread (some r) := by
  intro ps
  induction ps with
  | nil => intro r _ _; rfl
  | cons p rest ih =>
    intro r hr h
    have hp := h p (List.mem_cons_self _ _)
    have hcap : captureGeminiSessionMetadata (geminiStartThread (some r)) p
        = geminiStartThread (some r) := by
      unfold captureGeminiSessionMetadata
      rw [hp]
      simp [geminiStartThread, optTruthy, hr]
    rw [List.foldl_cons, hcap]
    exact ih r hr fun x hx => h x (List.mem_cons_of_mem _ hx)

/-- C7, confirmed. `resolveResumeTarget` resolves in the order: (1) the
cached resume token, (2) the thread's last-known session id, (3) the
explicit nonempty `opts.resume` supplied at thread start; and a thread
started with an explicit resume value, after any number of run payloads
none of which carries a native session id, still offers that explicit
value as the resume token for the next run. -/
theorem c7_resume_resolution_order :
    (∀ st : GThread, optTruthy st.resumeToken = true →
        resolveResumeTarget st = st.resumeToken)
    ∧ (∀ st : GThread, optTruthy st.resumeToken = false → optTruthy st.id = true →
        resolveResumeTarget st = st.id)
    ∧ (∀ (st : GThread) (c : String), optTruthy st.resumeToken = false →
        optTruthy st.id = false → st.optsResume = some c → c ≠ "" →
        resolveResumeTarget st = some c)
    ∧ (∀ (r : String) (ps : List JValue), r ≠ "" →
        (∀ p ∈ ps, extractSessionId p = none) →
        resolveResumeTarget (ps.foldl captureGeminiSessionMetadata
          (geminiStartThread (some r))) = some r) := by
  refine ⟨?_, ?_, ?_, ?_⟩
  · intro st h
    simp [resolveResumeTarget, h]
  · intro st h1 h2
    simp [resolveResumeTarget, h1, h2]
  · intro st c h1 h2 h3 h4
    simp [resolveResumeTarget, h1, h2, h3, string_length_pos_of_ne_empty h4]
  · intro r ps hr h
    rw [capture_keeps_start ps r hr h]
    simp [resolveResumeTarget, geminiStartThread, optTruthy, hr]

/-- C7, witness: a cached token wins, and a thread started with resume
value "sess-7" that observes one session-id-free payload still resolves to
"sess-7". -/
theorem c7_resume_resolution_witness :
    resolveResumeTarget { resumeToken := some "tok" } = some "tok"
    ∧ resolveResumeTarget
        ([JValue.obj [("type", JValue.str "message")]].foldl captureGeminiSessionMetadata
          (geminiStartThread (some "sess-7"))) = some "sess-7" :=
  ⟨c7_resume_resolution_order.1 { resumeToken := some "tok" } (by decide),
   c7_resume_resolution_order.2.2.2 "sess-7" [JValue.obj [("type", JValue.str "message")]]
     (by decide) (by decide)⟩

/-- C8, confirmed. Structured-output extraction refines its spec-side
restatement: the fenced json block is tried first and, when no fenced
block matches, the outermost brace span of the raw text; whenever that
composite fails to parse the extraction yields `none` (by the refinement,
since the spec-side composite is exactly brace-span-then-parse), as the
concrete fenced and no-JSON examples evaluate; and a run given an output
schema whose stdout is not JSON (so its text is the raw stdout and the
extraction is free to fail on it) still resolves successfully. -/
theorem c8_structured_output_extraction :
    (∀ t : String, extractJsonPayload (some t) = specExtractStructured t)
    ∧ extractJsonPayload (some "prose ```json\n\x7b\"x\": 1\x7d\n``` more prose")
        = some (JValue.obj [("x", JValue.num "1")])
    ∧ extractJsonPayload (some "there is no structured payload here") = none
    ∧ (∀ (stdout : String) (sessions : List GSessionEntry) (st0 : GThread)
          (ar : Option String), jsonParse stdout = none →
        (geminiRunOutcome st0 true stdout "" (some 0) false ar sessions).isOk = true) := by
  refine ⟨?_, rfl, rfl, ?_⟩
  · intro t
    by_cases ht : t = ""
    · subst ht; rfl
    · unfold extractJsonPayload specExtractStructured outerBraceParse fencedJsonGroup
      simp only [ht, if_false]
      cases hfs : fencedSearch t.data <;> simp [hfs]
  · intro stdout sessions st0 ar h
    have hparsed : parseGeminiJson stdout = JValue.obj [("response", JValue.str stdout)] := by
      simp [parseGeminiJson, h]
    simp [geminiRunOutcome, hparsed, jsGet, lookupLast, nullish, extractForText,
      Except.isOk, Except.toBool]

/-- C8, witness: a schema-bearing run over non-JSON stdout succeeds. -/
theorem c8_structured_output_witness :
    (geminiRunOutcome {} true "hello world" "" (some 0) false none []).isOk = true :=
  c8_structured_output_extraction.2.2.2 "hello world" [] {} none rfl

/-- C9, confirmed. A non-streamed gemini run with exit status 0 whose
entire stdout is not valid JSON resolves successfully, with the result's
text equal to the raw stdout and the raw payload wrapped as
`\x7b response: stdout \x7d`, rather than rejecting. -/
theorem c9_nonjson_stdout_resolves (stdout stderr : String)
    (sessions : List GSessionEntry) (st0 : GThread) (ar : Option String)
    (h : jsonParse stdout = none) :
    (geminiRunOutcome st0 false stdout stderr (some 0) false ar sessions).isOk = true
    ∧ (geminiRunOutcome st0 false stdout stderr (some 0) false ar sessions).toOption.map
        (fun p => p.1.text) = some (JValue.str stdout)
    ∧ (geminiRunOutcome st0 false stdout stderr (some 0) false ar sessions).toOption.map
        (fun p => p.1.raw) = some (JValue.obj [("response", JValue.str stdout)]) := by
  have hparsed : parseGeminiJson stdout = JValue.obj [("response", JValue.str stdout)] := by
    simp [parseGeminiJson, h]
  refine ⟨?_, ?_, ?_⟩ <;>
    simp [geminiRunOutcome, hparsed, jsGet, lookupLast, nullish,
      Except.isOk, Except.toBool, Except.toOption]

/-- C9, witness: plain prose stdout resolves with itself as the text. -/
theorem c9_nonjson_stdout_witness :
    (geminiRunOutcome {} false "plain gemini text" "" (some 0) false none []).isOk = true
    ∧ (geminiRunOutcome {} false "plain gemini text" "" (some 0) false none
        []).toOption.map (fun p => p.1.text) = some (JValue.str "plain gemini text")
    ∧ (geminiRunOutcome {} false "plain gemini text" "" (some 0) false none
        []).toOption.map (fun p => p.1.raw)
        = some (JValue.obj [("response", JValue.str "plain gemini text")]) :=
  c9_nonjson_stdout_resolves "plain gemini text" "" [] {} none rfl

/-- C10, confirmed. Interrupting a thread with no run in flight, or whose
current run is already aborted, is a no-op on both adapters: `abortChild`
returns the state unchanged and requests no stdin close, no timer and no
signal, and `abortCurrentRun` returns the codex thread state (session id
and current-run slot included) unchanged; neither function can throw. -/
theorem c10_interrupt_noop :
    (∀ reason : Option String, abortChild none reason = (none, []))
    ∧ (∀ (a : GActive) (reason : Option String), a.aborted = true →
        abortChild (some a) reason = (some a, []))
    ∧ (∀ (st : CxState) (reason : Option String), st.currentRun = none →
        abortCurrentRun st reason = st)
    ∧ (∀ (st : CxState) (a : CxActive) (reason : Option String),
        st.currentRun = some a → a.aborted = true → abortCurrentRun st reason = st) := by
  refine ⟨fun _ => rfl, ?_, ?_, ?_⟩
  · intro a reason ha
    simp [abortChild, ha]
  · intro st reason hcur
    unfold abortCurrentRun
    rw [hcur]
  · intro st a reason hcur ha
    unfold abortCurrentRun
    rw [hcur]
    simp [ha]

/-- C10, witness: an already-aborted gemini run and an already-aborted
codex run are both left untouched by a second interrupt. -/
theorem c10_interrupt_noop_witness :
    abortChild (some { aborted := true }) (some "halt") = (some { aborted := true }, [])
    ∧ abortCurrentRun { id := some "t", currentRun := some { aborted := true } }
        (some "halt") = { id := some "t", currentRun := some { aborted := true } } :=
  ⟨c10_interrupt_noop.2.1 { aborted := true } (some "halt") rfl,
   c10_interrupt_noop.2.2.2 { id := some "t", currentRun := some { aborted := true } }
     { aborted := true } (some "halt") rfl rfl⟩
